import Mathlib

/-!
Verification of the core logic of the `todo_frontend` single-page todo
application (`src/todo_frontend/src/App.js`).

The embedding is shallow:
* JSON values are modelled by the inductive `Json` (JSON numbers are
  modelled as integers: the only number the app ever writes is
  `Date.now()`, an integer number of milliseconds).
* The contents of the single `localStorage` slot are modelled by
  `StoredRaw`: the slot can be absent (`getItem` returned `null` or an
  empty string), hold a string that `JSON.parse` rejects, or hold a
  string that parses to a `Json` value.  `JSON.parse ∘ JSON.stringify`
  is the identity on the values the app writes, so serialization is
  modelled structurally: a successful save stores the encoded `Json`
  value directly.
* `cryptoRandomId()` is a fresh-id generator; successive calls are
  modelled by a function `Nat → String` indexed by the call site's
  position in the processed list.  `Date.now()` is passed in as an
  integer parameter.
* JavaScript's `String.prototype.trim` is modelled by `jsTrim`, which
  removes leading and trailing whitespace characters.
* The React component state (`todos`, `newText`, `editingId`,
  `editingText`) is the structure `AppState`; each event handler of the
  component becomes a function `AppState → AppState`.  Focus handling
  and rendering are outside the embedding.
-/

/-! ### Trimming -/

/-- Remove leading and trailing whitespace from a list of characters,
modelling what `String.prototype.trim` does to the underlying text. -/
def trimChars (l : List Char) : List Char :=
  ((l.dropWhile Char.isWhitespace).reverse.dropWhile Char.isWhitespace).reverse

/-- JavaScript's `s.trim()`. -/
def jsTrim (s : String) : String :=
  ⟨trimChars s.data⟩

/-! ### JSON values and the storage slot -/

/-- A parsed JSON value. -/
inductive Json where
  | null : Json
  | bool : Bool → Json
  | num : Int → Json
  | str : String → Json
  | arr : List Json → Json
  | obj : List (String × Json) → Json

/-- Property access `j[k]` on a parsed JSON value: on a non-object it
yields `undefined` (`none`); on an object the last binding of the key
wins, as in `JSON.parse`. -/
def Json.getField : Json → String → Option Json
  | .obj fields, k => fields.foldl (fun acc p => if p.1 = k then some p.2 else acc) none
  | _, _ => none

/-- `Array.isArray`. -/
def Json.isArr : Json → Bool
  | .arr _ => true
  | _ => false

/-- Is the value a JSON object (key/value record)? -/
def Json.isObj : Json → Bool
  | .obj _ => true
  | _ => false

/-- The test `t && typeof t === 'object'` from `loadTodosFromStorage`
(App.js line 18): `null` is falsy, and of the remaining JSON values
exactly arrays and objects have `typeof` equal to `'object'`. -/
def jsTruthyObject : Json → Bool
  | .arr _ => true
  | .obj _ => true
  | _ => false

/-- The contents of the `localStorage` slot under `STORAGE_KEY`, as seen
by `loadTodosFromStorage`. -/
inductive StoredRaw where
  | missing : StoredRaw
  | invalid : StoredRaw
  | parsed : Json → StoredRaw

/-! ### The todo item and the persistence adapter -/

/-- A todo item (App.js stores records `{id, text, createdAt}`). -/
structure TodoItem where
  id : String
  text : String
  createdAt : Int
deriving DecidableEq, Repr

/-- The body of the `.map` in `loadTodosFromStorage` (App.js lines
19-23): coerce one (truthy-object) entry to a `TodoItem`, substituting
a fresh id, an empty text, or the current time for ill-typed fields. -/
def coerceTodo (freshId : String) (now : Int) (j : Json) : TodoItem :=
  { id := match j.getField "id" with
          | some (.str s) => s
          | _ => freshId
  , text := match j.getField "text" with
            | some (.str s) => s
            | _ => ""
  , createdAt := match j.getField "createdAt" with
                 | some (.num n) => n
                 | _ => now }

/-- The `.map` over the filtered entries, threading the index of each
entry so that every substituted fresh id comes from a distinct call to
the id generator. -/
def normalizeTodos (freshId : Nat → String) (now : Int) : Nat → List Json → List TodoItem
  | _, [] => []
  | k, j :: js => coerceTodo (freshId k) now j :: normalizeTodos freshId now (k + 1) js

/-- `loadTodosFromStorage` (App.js lines 10-28).  A missing slot, a
string `JSON.parse` throws on, and a parsed value that is not an array
all give `[]`; otherwise the entries are filtered to truthy objects,
coerced, and entries whose trimmed text is empty are dropped.  The
function is total: no case raises an error. -/
def loadTodosFromStorage (freshId : Nat → String) (now : Int) : StoredRaw → List TodoItem
  | .missing => []
  | .invalid => []
  | .parsed j =>
    match j with
    | .arr elems =>
        (normalizeTodos freshId now 0 (elems.filter jsTruthyObject)).filter
          (fun t => 0 < (jsTrim t.text).length)
    | _ => []

/-- `JSON.stringify` of one todo item, kept as the parsed value. -/
def encodeTodo (t : TodoItem) : Json :=
  .obj [("id", .str t.id), ("text", .str t.text), ("createdAt", .num t.createdAt)]

/-- `JSON.stringify(todos)`, kept as the parsed value. -/
def encodeTodos (ts : List TodoItem) : Json :=
  .arr (ts.map encodeTodo)

/-- `saveTodosToStorage` (App.js lines 30-36) on a successful write: the
slot afterwards holds the serialized list. -/
def saveTodosToStorage (ts : List TodoItem) : StoredRaw :=
  .parsed (encodeTodos ts)

/-! ### Component state and event handlers -/

/-- The component's state: the todo list, the add-input field, the id
currently being edited (if any), and the edit buffer. -/
structure AppState where
  todos : List TodoItem
  newText : String
  editingId : Option String
  editingText : String
deriving DecidableEq, Repr

/-- The state at mount when storage held nothing. -/
def emptyState : AppState :=
  { todos := [], newText := "", editingId := none, editingText := "" }

/-- `addTodo` (App.js lines 79-90): trim the add-input; if the result is
empty return unchanged, else prepend `{id: freshId, text, createdAt:
now}` and clear the add-input. -/
def addTodo (freshId : String) (now : Int) (s : AppState) : AppState :=
  let text := jsTrim s.newText
  if text = "" then s
  else { s with todos := ⟨freshId, text, now⟩ :: s.todos, newText := "" }

/-- `startEdit` (App.js lines 92-97), minus the focus side effect. -/
def startEdit (t : TodoItem) (s : AppState) : AppState :=
  { s with editingId := some t.id, editingText := t.text }

/-- `cancelEdit` (App.js lines 99-102). -/
def cancelEdit (s : AppState) : AppState :=
  { s with editingId := none, editingText := "" }

/-- `saveEdit` (App.js lines 104-110): trim the edit buffer; if empty,
return unchanged (edit stays open), else give every item whose id
matches the trimmed text, leave edit mode and clear the buffer. -/
def saveEdit (id : String) (s : AppState) : AppState :=
  let next := jsTrim s.editingText
  if next = "" then s
  else { s with
         todos := s.todos.map (fun t => if t.id = id then { t with text := next } else t),
         editingId := none,
         editingText := "" }

/-- `deleteTodo` (App.js lines 112-115): drop every item whose id
matches; if the deleted id is the current edit target, also cancel the
edit. -/
def deleteTodo (id : String) (s : AppState) : AppState :=
  let s1 := { s with todos := s.todos.filter (fun t => ¬ t.id = id) }
  if s.editingId = some id then cancelEdit s1 else s1

/-- One user-level Add: type `input` into the add field, then submit.
The id generated by `cryptoRandomId()` and the `Date.now()` value of
that submission are the other two components. -/
def applyAdd (s : AppState) (op : String × String × Int) : AppState :=
  addTodo op.2.1 op.2.2 { s with newText := op.1 }

/-- Run a sequence of Adds. -/
def runAdds (ops : List (String × String × Int)) (s : AppState) : AppState :=
  ops.foldl applyAdd s

/-- The text invariant the spec claims for the list: each item's text is
already trimmed and non-empty. -/
def textInv (l : List TodoItem) : Prop :=
  ∀ t ∈ l, t.text = jsTrim t.text ∧ jsTrim t.text ≠ ""

instance : DecidablePred textInv := fun l =>
  inferInstanceAs (Decidable (∀ t ∈ l, _ ∧ _))

/-! ### Lemmas about trimming -/

lemma head?_dropWhile_false {α : Type} (p : α → Bool) (l : List α) :
    ∀ a, (l.dropWhile p).head? = some a → p a = false := by
  induction l with
  | nil => intro a h; simp [List.dropWhile] at h
  | cons b t ih =>
    intro a h
    by_cases hpb : p b
    · rw [List.dropWhile_cons_of_pos hpb] at h
      exact ih a h
    · rw [List.dropWhile_cons_of_neg hpb] at h
      simp at h
      rw [← h]
      simpa using hpb

lemma dropWhile_eq_self_of_head {α : Type} (p : α → Bool) (l : List α)
    (h : ∀ a, l.head? = some a → p a = false) : l.dropWhile p = l := by
  cases l with
  | nil => rfl
  | cons b t =>
    have hb : p b = false := h b rfl
    exact List.dropWhile_cons_of_neg (by simp [hb])

lemma getLast?_dropWhile {α : Type} (p : α → Bool) (l : List α)
    (h : l.dropWhile p ≠ []) : (l.dropWhile p).getLast? = l.getLast? := by
  induction l with
  | nil => simp [List.dropWhile] at h
  | cons b t ih =>
    by_cases hpb : p b
    · rw [List.dropWhile_cons_of_pos hpb] at h ⊢
      have ht : t ≠ [] := by
        intro heq
        rw [heq] at h
        simp [List.dropWhile] at h
      rw [ih h]
      cases t with
      | nil => exact absurd rfl ht
      | cons c u => rw [List.getLast?_cons_cons]
    · rw [List.dropWhile_cons_of_neg hpb]

lemma trimChars_idem (l : List Char) : trimChars (trimChars l) = trimChars l := by
  set p := Char.isWhitespace with hp
  set l1 := l.dropWhile p with hl1
  set m := l1.reverse.dropWhile p with hm
  have htc : trimChars l = m.reverse := rfl
  rw [htc]
  by_cases hmnil : m = []
  · rw [hmnil]; rfl
  · have hstep1 : m.reverse.dropWhile p = m.reverse := by
      apply dropWhile_eq_self_of_head
      intro a ha
      rw [List.head?_reverse] at ha
      rw [getLast?_dropWhile p l1.reverse hmnil] at ha
      rw [List.getLast?_reverse] at ha
      exact head?_dropWhile_false p l a ha
    have hstep2 : m.dropWhile p = m := by
      apply dropWhile_eq_self_of_head
      intro a ha
      exact head?_dropWhile_false p l1.reverse a ha
    unfold trimChars
    rw [hstep1, List.reverse_reverse, hstep2]

lemma jsTrim_idem (s : String) : jsTrim (jsTrim s) = jsTrim s := by
  unfold jsTrim
  exact congrArg String.mk (trimChars_idem s.data)

lemma string_length_pos_iff (s : String) : 0 < s.length ↔ s ≠ "" := by
  cases s with
  | mk data =>
    cases data with
    | nil => simp [String.length]
    | cons c cs =>
      simp [String.length]
      intro h
      have : (String.mk (c :: cs)).data = ("" : String).data := by rw [h]
      simp at this

lemma jsTrim_empty : jsTrim "" = "" := rfl

/-! ### Round trip: save then load (C1) -/

lemma filter_truthy_encode (ts : List TodoItem) :
    (ts.map encodeTodo).filter jsTruthyObject = ts.map encodeTodo := by
  apply List.filter_eq_self.mpr
  intro a ha
  rcases List.mem_map.mp ha with ⟨t, _, rfl⟩
  rfl

lemma coerceTodo_encodeTodo (f : String) (n : Int) (t : TodoItem) :
    coerceTodo f n (encodeTodo t) = t := rfl

lemma normalizeTodos_encode (f : Nat → String) (n : Int) (ts : List TodoItem) :
    ∀ k, normalizeTodos f n k (ts.map encodeTodo) = ts := by
  induction ts with
  | nil => intro k; rfl
  | cons t ts ih =>
    intro k
    simp only [List.map_cons, normalizeTodos, coerceTodo_encodeTodo]
    rw [ih]

/-- C1: saving a list in which every item's trimmed text is non-empty
and then loading returns the very same list: same items, same order,
identical `id`, `text` and `createdAt` fields. -/
theorem c1_save_load_roundtrip (freshId : Nat → String) (now : Int) (todos : List TodoItem)
    (h : ∀ t ∈ todos, jsTrim t.text ≠ "") :
    loadTodosFromStorage freshId now (saveTodosToStorage todos) = todos := by
  show (normalizeTodos freshId now 0 ((todos.map encodeTodo).filter jsTruthyObject)).filter
      (fun t => 0 < (jsTrim t.text).length) = todos
  rw [filter_truthy_encode, normalizeTodos_encode]
  apply List.filter_eq_self.mpr
  intro t ht
  simp only [decide_eq_true_eq]
  exact (string_length_pos_iff _).mpr (h t ht)

/-- Witness for C1 at a concrete two-item list. -/
theorem c1_save_load_roundtrip_witness :
    (∀ t ∈ [(⟨"a", "buy milk", 5⟩ : TodoItem), ⟨"b", "walk dog", 6⟩], jsTrim t.text ≠ "") ∧
    loadTodosFromStorage (fun _ => "w") 0
        (saveTodosToStorage [⟨"a", "buy milk", 5⟩, ⟨"b", "walk dog", 6⟩])
      = [⟨"a", "buy milk", 5⟩, ⟨"b", "walk dog", 6⟩] :=
  ⟨by decide, c1_save_load_roundtrip (fun _ => "w") 0 _ (by decide)⟩

/-! ### Defensive loading (C2) -/

lemma coerceTodo_text_empty (f : String) (n : Int) (j : Json) (h : j.isObj = false) :
    (coerceTodo f n j).text = "" := by
  cases j <;> first | rfl | simp [Json.isObj] at h

lemma normalize_no_obj_filter_nil (f : Nat → String) (n : Int) (js : List Json)
    (h : ∀ j ∈ js, j.isObj = false) :
    ∀ k, (normalizeTodos f n k js).filter (fun t => 0 < (jsTrim t.text).length) = [] := by
  induction js with
  | nil => intro k; rfl
  | cons j js ih =>
    intro k
    have htext : (coerceTodo (f k) n j).text = "" :=
      coerceTodo_text_empty _ _ _ (h j (by simp))
    simp only [normalizeTodos, List.filter_cons, htext, jsTrim_empty]
    simp only [String.length_empty, lt_self_iff_false, decide_False, if_false]
    exact ih (fun x hx => h x (by simp [hx])) (k + 1)

/-- C2: loading is total (the embedding is a total function, so no case
raises), and returns the empty list when the slot is missing, when the
stored string is not valid JSON, when the parsed JSON value is not an
array, and when it is an array whose entries are all non-objects. -/
theorem c2_load_total_defensive (freshId : Nat → String) (now : Int)
    (j : Json) (elems : List Json)
    (hj : j.isArr = false) (helems : ∀ x ∈ elems, x.isObj = false) :
    loadTodosFromStorage freshId now .missing = [] ∧
    loadTodosFromStorage freshId now .invalid = [] ∧
    loadTodosFromStorage freshId now (.parsed j) = [] ∧
    loadTodosFromStorage freshId now (.parsed (.arr elems)) = [] := by
  refine ⟨rfl, rfl, ?_, ?_⟩
  · cases j with
    | arr es => simp [Json.isArr] at hj
    | null => rfl
    | bool b => rfl
    | num m => rfl
    | str s => rfl
    | obj fs => rfl
  · show (normalizeTodos freshId now 0 (elems.filter jsTruthyObject)).filter
        (fun t => 0 < (jsTrim t.text).length) = []
    apply normalize_no_obj_filter_nil
    intro x hx
    exact helems x (List.mem_filter.mp hx).1

/-- Witness for C2 at concrete corrupt payloads. -/
theorem c2_load_total_defensive_witness :
    ((Json.num 3).isArr = false ∧
      ∀ x ∈ [Json.num 1, Json.str "a", Json.null, Json.bool true, Json.arr []],
        x.isObj = false) ∧
    (loadTodosFromStorage (fun _ => "w2") 0 .missing = [] ∧
     loadTodosFromStorage (fun _ => "w2") 0 .invalid = [] ∧
     loadTodosFromStorage (fun _ => "w2") 0 (.parsed (Json.num 3)) = [] ∧
     loadTodosFromStorage (fun _ => "w2") 0
       (.parsed (.arr [Json.num 1, Json.str "a", Json.null, Json.bool true, Json.arr []])) = []) :=
  ⟨⟨rfl, by decide⟩, c2_load_total_defensive (fun _ => "w2") 0 (Json.num 3) _ rfl (by decide)⟩

lemma deleteTodo_todos (id : String) (s : AppState) :
    (deleteTodo id s).todos = s.todos.filter (fun t => ¬ t.id = id) := by
  unfold deleteTodo
  by_cases h : s.editingId = some id <;> simp [h, cancelEdit]

/-! ### The text invariant (C3) -/

lemma mem_load_trim_pos (f : Nat → String) (n : Int) (raw : StoredRaw) (t : TodoItem)
    (ht : t ∈ loadTodosFromStorage f n raw) : 0 < (jsTrim t.text).length := by
  cases raw with
  | missing => exact absurd ht (List.not_mem_nil t)
  | invalid => exact absurd ht (List.not_mem_nil t)
  | parsed j =>
    cases j with
    | arr elems =>
      have h2 := (List.mem_filter.mp ht).2
      simpa using h2
    | null => exact absurd ht (List.not_mem_nil t)
    | bool b => exact absurd ht (List.not_mem_nil t)
    | num m => exact absurd ht (List.not_mem_nil t)
    | str s => exact absurd ht (List.not_mem_nil t)
    | obj fs => exact absurd ht (List.not_mem_nil t)

/-- C3 is false as stated: Load keeps an item whose stored text is
non-empty after trimming but not equal to its own trim (the text is
kept verbatim, only the emptiness test uses the trimmed form). -/
theorem c3_counterexample :
    ¬ textInv (loadTodosFromStorage (fun _ => "cfid") 0
        (StoredRaw.parsed (Json.arr
          [Json.obj [("id", Json.str "a"), ("text", Json.str " hi "),
                     ("createdAt", Json.num 0)]]))) := by
  decide

/-- C3 (amended): every item produced by Load has text whose trimmed
form is non-empty (but not necessarily equal to its own trim), and the
full invariant — text equal to its own trim and non-empty — is
preserved by Add, CommitEdit and Delete. -/
theorem c3_amended_text_invariant (f : Nat → String) (n : Int) (raw : StoredRaw)
    (fid : String) (now : Int) (id : String) (s : AppState) :
    (∀ t ∈ loadTodosFromStorage f n raw, jsTrim t.text ≠ "") ∧
    (textInv s.todos → textInv (addTodo fid now s).todos) ∧
    (textInv s.todos → textInv (saveEdit id s).todos) ∧
    (textInv s.todos → textInv (deleteTodo id s).todos) := by
  refine ⟨?_, ?_, ?_, ?_⟩
  · intro t ht
    exact (string_length_pos_iff _).mp (mem_load_trim_pos f n raw t ht)
  · intro hinv
    unfold textInv at hinv ⊢
    unfold addTodo
    by_cases hempty : jsTrim s.newText = ""
    · simpa [hempty] using hinv
    · simp only [hempty, if_false]
      intro t ht
      rcases List.mem_cons.mp ht with rfl | hmem
      · exact ⟨(jsTrim_idem s.newText).symm, by rw [jsTrim_idem]; exact hempty⟩
      · exact hinv t hmem
  · intro hinv
    unfold textInv at hinv ⊢
    unfold saveEdit
    by_cases hempty : jsTrim s.editingText = ""
    · simpa [hempty] using hinv
    · simp only [hempty, if_false]
      intro t ht
      rcases List.mem_map.mp ht with ⟨u, hu, rfl⟩
      by_cases hid : u.id = id
      · simp only [hid, if_true]
        exact ⟨(jsTrim_idem s.editingText).symm, by rw [jsTrim_idem]; exact hempty⟩
      · simp only [hid, if_false]
        exact hinv u hu
  · intro hinv
    unfold textInv at hinv ⊢
    intro t ht
    rw [deleteTodo_todos] at ht
    exact hinv t (List.mem_filter.mp ht).1

/-- Witness for the amended C3: Add on a concrete valid state keeps the
invariant. -/
theorem c3_amended_text_invariant_witness :
    textInv ([(⟨"a", "buy milk", 0⟩ : TodoItem)]) ∧
    textInv (addTodo "b" 7 ⟨[⟨"a", "buy milk", 0⟩], "  walk dog ", none, ""⟩).todos :=
  ⟨by decide,
   (c3_amended_text_invariant (fun _ => "w3") 0 .missing "b" 7 "x"
      ⟨[⟨"a", "buy milk", 0⟩], "  walk dog ", none, ""⟩).2.1 (by decide)⟩

/-! ### Distinct ids (C4) -/

/-- C4 is false as stated: Load performs no deduplication, so a stored
payload repeating the same id string yields a list with duplicate ids. -/
theorem c4_counterexample :
    ¬ ((loadTodosFromStorage (fun _ => "dfid") 0
        (StoredRaw.parsed (Json.arr
          [Json.obj [("id", Json.str "a"), ("text", Json.str "x"), ("createdAt", Json.num 0)],
           Json.obj [("id", Json.str "a"), ("text", Json.str "y"),
                     ("createdAt", Json.num 1)]]))).map TodoItem.id).Nodup := by
  decide

/-- C4 (amended): pairwise-distinct ids are preserved by Add whenever
the freshly generated id differs from every id already in the list, and
unconditionally by CommitEdit and Delete; Load does not establish the
invariant for arbitrary stored payloads. -/
theorem c4_amended_distinct_ids (s : AppState) (fid : String) (now : Int) (id : String)
    (hnd : (s.todos.map TodoItem.id).Nodup)
    (hfresh : fid ∉ s.todos.map TodoItem.id) :
    ((addTodo fid now s).todos.map TodoItem.id).Nodup ∧
    ((saveEdit id s).todos.map TodoItem.id).Nodup ∧
    ((deleteTodo id s).todos.map TodoItem.id).Nodup := by
  refine ⟨?_, ?_, ?_⟩
  · unfold addTodo
    by_cases hempty : jsTrim s.newText = ""
    · simpa [hempty] using hnd
    · simp only [hempty, if_false, List.map_cons]
      exact List.nodup_cons.mpr ⟨hfresh, hnd⟩
  · unfold saveEdit
    by_cases hempty : jsTrim s.editingText = ""
    · simpa [hempty] using hnd
    · simp only [hempty, if_false]
      rw [List.map_map]
      have hco : (TodoItem.id ∘ fun t =>
          if t.id = id then { t with text := jsTrim s.editingText } else t) = TodoItem.id := by
        funext t
        by_cases h : t.id = id <;> simp [Function.comp, h]
      rw [hco]
      exact hnd
  · rw [deleteTodo_todos]
    exact hnd.sublist (List.Sublist.map _ (List.filter_sublist _))

/-- Witness for the amended C4 at a concrete state and fresh id. -/
theorem c4_amended_distinct_ids_witness :
    ((([(⟨"a", "x", 0⟩ : TodoItem), ⟨"b", "y", 1⟩].map TodoItem.id).Nodup) ∧
      "c" ∉ [(⟨"a", "x", 0⟩ : TodoItem), ⟨"b", "y", 1⟩].map TodoItem.id) ∧
    ((addTodo "c" 9 ⟨[⟨"a", "x", 0⟩, ⟨"b", "y", 1⟩], "new todo", none, ""⟩).todos.map
        TodoItem.id).Nodup :=
  ⟨⟨by decide, by decide⟩,
   (c4_amended_distinct_ids ⟨[⟨"a", "x", 0⟩, ⟨"b", "y", 1⟩], "new todo", none, ""⟩
      "c" 9 "a" (by decide) (by decide)).1⟩

/-! ### Delete (C5) -/

lemma filter_ne_length_of_mem (l : List TodoItem) (id : String)
    (hnd : (l.map TodoItem.id).Nodup) (hmem : ∃ t ∈ l, t.id = id) :
    (l.filter (fun t => ¬ t.id = id)).length + 1 = l.length := by
  induction l with
  | nil =>
    rcases hmem with ⟨t, ht, _⟩
    exact absurd ht (List.not_mem_nil t)
  | cons a t ih =>
    rw [List.map_cons, List.nodup_cons] at hnd
    by_cases haid : a.id = id
    · have hrest : t.filter (fun x => ¬ x.id = id) = t := by
        apply List.filter_eq_self.mpr
        intro x hx
        simp only [decide_eq_true_eq]
        intro hxid
        apply hnd.1
        rw [haid, ← hxid]
        exact List.mem_map_of_mem TodoItem.id hx
      rw [List.filter_cons]
      simp only [haid, not_true, decide_False, if_false]
      rw [hrest]
      simp
    · rcases hmem with ⟨u, hu, huid⟩
      rcases List.mem_cons.mp hu with rfl | humem
      · exact absurd huid haid
      · rw [List.filter_cons]
        simp only [haid, not_false_iff, decide_True, if_true]
        have := ih hnd.2 ⟨u, humem, huid⟩
        simp only [List.length_cons]
        omega

lemma filter_eq_id_length_one (l : List TodoItem) (id : String)
    (hnd : (l.map TodoItem.id).Nodup) (hmem : ∃ t ∈ l, t.id = id) :
    (l.filter (fun t => t.id = id)).length = 1 := by
  induction l with
  | nil =>
    rcases hmem with ⟨t, ht, _⟩
    exact absurd ht (List.not_mem_nil t)
  | cons a t ih =>
    rw [List.map_cons, List.nodup_cons] at hnd
    by_cases haid : a.id = id
    · have hrest : t.filter (fun x => x.id = id) = [] := by
        rw [List.filter_eq_nil_iff]
        intro x hx
        simp only [decide_eq_true_eq]
        intro hxid
        apply hnd.1
        rw [haid, ← hxid]
        exact List.mem_map_of_mem TodoItem.id hx
      rw [List.filter_cons]
      simp only [haid, decide_True, if_true]
      rw [hrest]
      rfl
    · rcases hmem with ⟨u, hu, huid⟩
      rcases List.mem_cons.mp hu with rfl | humem
      · exact absurd huid haid
      · rw [List.filter_cons]
        simp only [haid, decide_False, if_false]
        exact ih hnd.2 ⟨u, humem, huid⟩

/-- C5 is false as stated: in a (loadable) list where two items share
the id "a", Delete("a") removes both of them, not exactly one, even
though an item with that id is present. -/
theorem c5_counterexample :
    (∃ t ∈ (⟨[⟨"a", "x", 0⟩, ⟨"a", "y", 1⟩], "", none, ""⟩ : AppState).todos, t.id = "a") ∧
    (deleteTodo "a" (⟨[⟨"a", "x", 0⟩, ⟨"a", "y", 1⟩], "", none, ""⟩ : AppState)).todos.length + 1
      ≠ (⟨[⟨"a", "x", 0⟩, ⟨"a", "y", 1⟩], "", none, ""⟩ : AppState).todos.length := by
  decide

/-- C5 (amended): on a list with pairwise-distinct ids, Delete(id)
removes exactly the matching item when present (length drops by one and
every non-matching item is kept in order), is a no-op on the list when
the id is absent, and clears edit mode when the deleted id is the
current edit target. -/
theorem c5_amended_delete (s : AppState) (id : String)
    (hnd : (s.todos.map TodoItem.id).Nodup) :
    ((∃ t ∈ s.todos, t.id = id) → (deleteTodo id s).todos.length + 1 = s.todos.length) ∧
    (deleteTodo id s).todos = s.todos.filter (fun t => ¬ t.id = id) ∧
    ((∀ t ∈ s.todos, t.id ≠ id) → (deleteTodo id s).todos = s.todos) ∧
    (s.editingId = some id →
      (deleteTodo id s).editingId = none ∧ (deleteTodo id s).editingText = "") := by
  refine ⟨?_, deleteTodo_todos id s, ?_, ?_⟩
  · intro hmem
    rw [deleteTodo_todos]
    exact filter_ne_length_of_mem s.todos id hnd hmem
  · intro habs
    rw [deleteTodo_todos]
    apply List.filter_eq_self.mpr
    intro t ht
    simpa using habs t ht
  · intro hedit
    unfold deleteTodo
    simp [hedit, cancelEdit]

/-- Witness for the amended C5: deleting "a" from a concrete two-item
list with distinct ids removes exactly one item. -/
theorem c5_amended_delete_witness :
    (((⟨[⟨"a", "x", 0⟩, ⟨"b", "y", 1⟩], "", none, ""⟩ : AppState).todos.map TodoItem.id).Nodup ∧
      (∃ t ∈ (⟨[⟨"a", "x", 0⟩, ⟨"b", "y", 1⟩], "", none, ""⟩ : AppState).todos, t.id = "a")) ∧
    (deleteTodo "a" (⟨[⟨"a", "x", 0⟩, ⟨"b", "y", 1⟩], "", none, ""⟩ : AppState)).todos.length + 1
      = (⟨[⟨"a", "x", 0⟩, ⟨"b", "y", 1⟩], "", none, ""⟩ : AppState).todos.length :=
  ⟨⟨by decide, by decide⟩,
   (c5_amended_delete ⟨[⟨"a", "x", 0⟩, ⟨"b", "y", 1⟩], "", none, ""⟩ "a" (by decide)).1
     (by decide)⟩

/-! ### Sequences of Adds (C6) -/

lemma applyAdd_todos (s : AppState) (op : String × String × Int)
    (hop : jsTrim op.1 ≠ "") :
    (applyAdd s op).todos = ⟨op.2.1, jsTrim op.1, op.2.2⟩ :: s.todos := by
  unfold applyAdd addTodo
  simp [hop]

lemma runAdds_todos (ops : List (String × String × Int)) :
    ∀ s : AppState, (∀ op ∈ ops, jsTrim op.1 ≠ "") →
      (runAdds ops s).todos
        = (ops.map (fun op => (⟨op.2.1, jsTrim op.1, op.2.2⟩ : TodoItem))).reverse
            ++ s.todos := by
  induction ops with
  | nil => intro s _; rfl
  | cons op ops ih =>
    intro s h
    show (runAdds ops (applyAdd s op)).todos = _
    rw [ih (applyAdd s op) (fun o ho => h o (by simp [ho]))]
    rw [applyAdd_todos s op (h op (by simp))]
    simp

/-- C6: running any sequence of Adds whose inputs all trim to non-empty
strings from the empty list yields one item per Add, each item carrying
the trimmed input, in strictly newest-first (prepend) order. -/
theorem c6_adds_prepend (ops : List (String × String × Int))
    (h : ∀ op ∈ ops, jsTrim op.1 ≠ "") :
    (runAdds ops emptyState).todos
      = (ops.map (fun op => (⟨op.2.1, jsTrim op.1, op.2.2⟩ : TodoItem))).reverse ∧
    (runAdds ops emptyState).todos.length = ops.length := by
  have h1 := runAdds_todos ops emptyState h
  rw [show emptyState.todos = [] from rfl, List.append_nil] at h1
  refine ⟨h1, ?_⟩
  rw [h1]
  simp

/-- Witness for C6 on two concrete Adds. -/
theorem c6_adds_prepend_witness :
    (∀ op ∈ [("  buy milk ", "id1", (5 : Int)), ("walk dog", "id2", 6)], jsTrim op.1 ≠ "") ∧
    ((runAdds [("  buy milk ", "id1", 5), ("walk dog", "id2", 6)] emptyState).todos
        = ([("  buy milk ", "id1", (5 : Int)), ("walk dog", "id2", 6)].map
            (fun op => (⟨op.2.1, jsTrim op.1, op.2.2⟩ : TodoItem))).reverse ∧
      (runAdds [("  buy milk ", "id1", 5), ("walk dog", "id2", 6)] emptyState).todos.length
        = [("  buy milk ", "id1", (5 : Int)), ("walk dog", "id2", 6)].length) :=
  ⟨by decide, c6_adds_prepend [("  buy milk ", "id1", 5), ("walk dog", "id2", 6)] (by decide)⟩

/-! ### Commit with an empty buffer (C7) -/

/-- C7: in edit mode, if the edit buffer trims to the empty string then
CommitEdit changes nothing at all: the list (hence the target item's
text) is untouched, `editingId` is unchanged (edit mode stays open) and
the buffer is not cleared. -/
theorem c7_commit_empty_noop (s : AppState) (id eid : String)
    (hedit : s.editingId = some eid) (hempty : jsTrim s.editingText = "") :
    saveEdit id s = s := by
  unfold saveEdit
  simp [hempty]

/-- Witness for C7: committing with a whitespace-only buffer. -/
theorem c7_commit_empty_noop_witness :
    ((⟨[⟨"a", "buy milk", 0⟩], "", some "a", "   "⟩ : AppState).editingId = some "a" ∧
      jsTrim (⟨[⟨"a", "buy milk", 0⟩], "", some "a", "   "⟩ : AppState).editingText = "") ∧
    saveEdit "a" (⟨[⟨"a", "buy milk", 0⟩], "", some "a", "   "⟩ : AppState)
      = ⟨[⟨"a", "buy milk", 0⟩], "", some "a", "   "⟩ :=
  ⟨⟨rfl, by decide⟩,
   c7_commit_empty_noop ⟨[⟨"a", "buy milk", 0⟩], "", some "a", "   "⟩ "a" "a" rfl (by decide)⟩

/-! ### Commit with a non-empty buffer (C8) -/

/-- A state with duplicate ids, reachable by loading a hand-written
payload, used to refute C8 as stated. -/
def dupEditState : AppState :=
  ⟨[⟨"b", "x", 0⟩, ⟨"b", "y", 1⟩], "", some "b", "z"⟩

/-- C8 is false as stated: when two items share the target id,
CommitEdit rewrites the text of both of them, so an item other than
the (one) target also changes. -/
theorem c8_counterexample :
    (∃ t ∈ dupEditState.todos, t.id = "b") ∧
    jsTrim dupEditState.editingText ≠ "" ∧
    ((dupEditState.todos.zip (saveEdit "b" dupEditState).todos).filter
        (fun p => ¬ p.1.text = p.2.text)).length = 2 := by
  decide

/-- C8 (amended): on a list with pairwise-distinct ids containing the
target id, CommitEdit with a non-empty-trimming buffer keeps the length,
rewrites position-wise exactly the matching item's text to the trimmed
buffer (ids and creation times untouched, all other items untouched,
order untouched; exactly one item matches), exits edit mode, clears the
buffer and leaves the add-input alone. -/
theorem c8_amended_commit_replaces (s : AppState) (id : String)
    (hnd : (s.todos.map TodoItem.id).Nodup)
    (hmem : ∃ t ∈ s.todos, t.id = id)
    (hne : jsTrim s.editingText ≠ "") :
    (saveEdit id s).todos.length = s.todos.length ∧
    (s.todos.filter (fun t => t.id = id)).length = 1 ∧
    (∀ i : Nat, (saveEdit id s).todos[i]? =
      (s.todos[i]?).map (fun t =>
        if t.id = id then { t with text := jsTrim s.editingText } else t)) ∧
    (saveEdit id s).editingId = none ∧
    (saveEdit id s).editingText = "" ∧
    (saveEdit id s).newText = s.newText := by
  have htodos : (saveEdit id s).todos
      = s.todos.map (fun t =>
          if t.id = id then { t with text := jsTrim s.editingText } else t) := by
    unfold saveEdit
    simp [hne]
  refine ⟨?_, filter_eq_id_length_one s.todos id hnd hmem, ?_, ?_, ?_, ?_⟩
  · rw [htodos, List.length_map]
  · intro i
    rw [htodos, List.getElem?_map]
  · unfold saveEdit; simp [hne]
  · unfold saveEdit; simp [hne]
  · unfold saveEdit; simp [hne]

/-- Witness for the amended C8 at a concrete distinct-id state. -/
theorem c8_amended_commit_replaces_witness :
    (((⟨[⟨"a", "x", 0⟩, ⟨"b", "y", 1⟩], "", some "b", " z "⟩ : AppState).todos.map
        TodoItem.id).Nodup ∧
      (∃ t ∈ (⟨[⟨"a", "x", 0⟩, ⟨"b", "y", 1⟩], "", some "b", " z "⟩ : AppState).todos,
        t.id = "b") ∧
      jsTrim (⟨[⟨"a", "x", 0⟩, ⟨"b", "y", 1⟩], "", some "b", " z "⟩ : AppState).editingText
        ≠ "") ∧
    (saveEdit "b" (⟨[⟨"a", "x", 0⟩, ⟨"b", "y", 1⟩], "", some "b", " z "⟩ : AppState)).todos.length
      = (⟨[⟨"a", "x", 0⟩, ⟨"b", "y", 1⟩], "", some "b", " z "⟩ : AppState).todos.length :=
  ⟨⟨by decide, by decide, by decide⟩,
   (c8_amended_commit_replaces ⟨[⟨"a", "x", 0⟩, ⟨"b", "y", 1⟩], "", some "b", " z "⟩ "b"
      (by decide) (by decide) (by decide)).1⟩

/-! ### Add with an empty input (C9) -/

/-- C9: when the add-input trims to the empty string, Add changes
nothing: the list is unchanged and the add-input keeps its content (it
is not cleared) — the whole state is returned as is. -/
theorem c9_add_empty_noop (s : AppState) (freshId : String) (now : Int)
    (h : jsTrim s.newText = "") :
    addTodo freshId now s = s := by
  unfold addTodo
  simp [h]

/-- Witness for C9 with a whitespace-only add-input. -/
theorem c9_add_empty_noop_witness :
    jsTrim (⟨[⟨"a", "x", 0⟩], "   ", none, ""⟩ : AppState).newText = "" ∧
    addTodo "f" 3 (⟨[⟨"a", "x", 0⟩], "   ", none, ""⟩ : AppState)
      = ⟨[⟨"a", "x", 0⟩], "   ", none, ""⟩ :=
  ⟨by decide, c9_add_empty_noop ⟨[⟨"a", "x", 0⟩], "   ", none, ""⟩ "f" 3 (by decide)⟩

/-! ### Commit targeting an absent id (C10) -/

lemma map_id_of_forall {α : Type} (l : List α) (f : α → α) (h : ∀ a ∈ l, f a = a) :
    l.map f = l := by
  induction l with
  | nil => rfl
  | cons a t ih =>
    rw [List.map_cons, h a (by simp), ih (fun x hx => h x (by simp [hx]))]

/-- C10: when no item carries the target id and the buffer trims to a
non-empty string, CommitEdit leaves the list (and the add-input)
unchanged but still exits edit mode and clears the edit buffer. -/
theorem c10_commit_absent_id (s : AppState) (id : String)
    (habs : ∀ t ∈ s.todos, t.id ≠ id) (hne : jsTrim s.editingText ≠ "") :
    saveEdit id s = { s with editingId := none, editingText := "" } := by
  have hmap : s.todos.map (fun t =>
      if t.id = id then { t with text := jsTrim s.editingText } else t) = s.todos :=
    map_id_of_forall _ _ (fun t ht => if_neg (habs t ht))
  unfold saveEdit
  simp [hne, hmap]

/-- Witness for C10: committing "new" while editing an id absent from
the list. -/
theorem c10_commit_absent_id_witness :
    ((∀ t ∈ (⟨[⟨"a", "x", 0⟩], "", some "zz", "new"⟩ : AppState).todos, t.id ≠ "zz") ∧
      jsTrim (⟨[⟨"a", "x", 0⟩], "", some "zz", "new"⟩ : AppState).editingText ≠ "") ∧
    saveEdit "zz" (⟨[⟨"a", "x", 0⟩], "", some "zz", "new"⟩ : AppState)
      = ⟨[⟨"a", "x", 0⟩], "", none, ""⟩ :=
  ⟨⟨by decide, by decide⟩,
   c10_commit_absent_id ⟨[⟨"a", "x", 0⟩], "", some "zz", "new"⟩ "zz" (by decide) (by decide)⟩
